import Mathlib

/-!
Shallow embedding of the inventory application in `app.py`
(Slashbull/Inventory-Software): the SQLite-backed stock ledger and order
log, the two regex-driven text parsers, and the order-submission handler.
Machine state is a record of the four tables; Python strings are `String`
(processed as `List Char`); SQLite INTEGER columns are `Int`.

The regular expressions of `parse_order_text` are embedded as
deterministic scanning functions.  Every star in those patterns except
the `\S+` of the item pattern is followed by a literal that no character
matched by the star can begin, so Python's greedy backtracking collapses
to "consume the maximal run, then match the literal"; the `\S+` is given
an explicit longest-first backtracking search (`tryK`).
-/

namespace Inventory

/-- Python `\s` on ASCII text: space, tab, newline, carriage return,
vertical tab, form feed. -/
def pyWS (ch : Char) : Bool :=
  ch = ' ' || ch = '\t' || ch = '\n' || ch = '\r' ||
  ch = Char.ofNat 11 || ch = Char.ofNat 12

/-- Python `str.strip()`: drop whitespace from both ends. -/
def pyStrip (s : List Char) : List Char :=
  ((s.dropWhile pyWS).reverse.dropWhile pyWS).reverse

/-- Case-insensitive literal match (re.IGNORECASE); returns the rest of
the input after the literal. -/
def matchCI : List Char → List Char → Option (List Char)
  | [], s => some s
  | _ :: _, [] => none
  | p :: ps, ch :: cs => if p.toLower = ch.toLower then matchCI ps cs else none

/-- Numeric value of a run of ASCII digits. -/
def digitsToNat (ds : List Char) : Nat :=
  ds.foldl (fun a ch => a * 10 + (ch.toNat - 48)) 0

/-- Digit tail of Python `int(...)` on a string: after the first digit,
digits with single underscores allowed between digits. -/
def parseDigitsU : Nat → List Char → Option Nat
  | a, [] => some a
  | _, ['_'] => none
  | a, '_' :: ch :: t =>
      if ch.isDigit then parseDigitsU (a * 10 + (ch.toNat - 48)) t else none
  | a, ch :: t =>
      if ch.isDigit then parseDigitsU (a * 10 + (ch.toNat - 48)) t else none

/-- Unsigned part of Python `int(...)`: at least one digit, then
`parseDigitsU`. -/
def pyIntDigits : List Char → Option Nat
  | [] => none
  | ch :: t => if ch.isDigit then parseDigitsU (ch.toNat - 48) t else none

/-- Python `int(str)` on ASCII text: surrounding whitespace stripped,
optional sign, digits with underscores between them; `none` models the
`ValueError` raised on any other input. -/
def pyInt (s : List Char) : Option Int :=
  match pyStrip s with
  | '+' :: t => (pyIntDigits t).map Int.ofNat
  | '-' :: t => (pyIntDigits t).map (fun n => -(n : Int))
  | t => (pyIntDigits t).map Int.ofNat

/-- Split at the first occurrence of `ch`: `some (before, after)`, or
`none` when `ch` does not occur.  This is the lazy `(.*?)\)` tail of the
item pattern (with re.DOTALL the dot also matches newlines). -/
def breakAtChar (ch : Char) : List Char → Option (List Char × List Char)
  | [] => none
  | c :: t =>
      if c = ch then some ([], t)
      else (breakAtChar ch t).map (fun p => (c :: p.1, p.2))

/-- Does `hay` start with `needle`? -/
def leadsWith : List Char → List Char → Bool
  | [], _ => true
  | _ :: _, [] => false
  | n :: ns, h :: hs => n = h && leadsWith ns hs

/-- Python `needle in hay` substring test. -/
def containsSub (hay needle : List Char) : Bool :=
  match hay with
  | [] => leadsWith needle []
  | _ :: t => leadsWith needle hay || containsSub t needle

/-- Python `str.split(sep)` for a single-character separator: every
occurrence splits, empty pieces kept. -/
def splitChar (sep : Char) : List Char → List (List Char)
  | [] => [[]]
  | c :: t =>
      if c = sep then [] :: splitChar sep t
      else match splitChar sep t with
        | [] => [[c]]
        | p :: ps => (c :: p) :: ps

/-- Worker for `re.split(r"\s{2,}", line)`: a run of two or more
whitespace characters separates pieces.  Fuel-driven so the kernel can
evaluate it; fuel `length + 1` always suffices since every step consumes
at least one character. -/
def splitWS2F : Nat → List Char → List Char → List (List Char)
  | 0, acc, s => [acc.reverse ++ s]
  | _ + 1, acc, [] => [acc.reverse]
  | _ + 1, acc, [c] => [(c :: acc).reverse]
  | fuel + 1, acc, c1 :: c2 :: t =>
      if pyWS c1 && pyWS c2 then
        acc.reverse :: splitWS2F fuel [] (t.dropWhile pyWS)
      else
        splitWS2F fuel (c1 :: acc) (c2 :: t)

/-- `re.split(r"\s{2,}", line)`. -/
def splitWS2 (s : List Char) : List (List Char) :=
  splitWS2F (s.length + 1) [] s

/-- Python `str.splitlines()` restricted to the line breaks that can
occur here: `\r\n`, `\r`, `\n`, vertical tab, form feed; no trailing
empty line for a terminal break. -/
def pySplitlinesGo : List Char → List Char → List (List Char)
  | acc, [] => [acc.reverse]
  | acc, '\r' :: '\n' :: t =>
      acc.reverse :: (if t.isEmpty then [] else pySplitlinesGo [] t)
  | acc, c :: t =>
      if c = '\n' || c = '\r' || c = Char.ofNat 11 || c = Char.ofNat 12 then
        acc.reverse :: (if t.isEmpty then [] else pySplitlinesGo [] t)
      else
        pySplitlinesGo (c :: acc) t

def pySplitlines (s : List Char) : List (List Char) :=
  match s with
  | [] => []
  | _ => pySplitlinesGo [] s

/-! ### The order-text patterns (`parse_order_text`, app.py lines 193-223) -/

/-- `re.search` scan: try the matcher at every start position, leftmost
first. -/
def searchFrom {α : Type} (m : List Char → Option α) : List Char → Option α
  | [] => m []
  | s@(_ :: t) =>
      match m s with
      | some r => some r
      | none => searchFrom m t

/-- Match `Party\s*Name\s*:\s*(.*)` at one position; the capture is the
rest of the line after the greedy whitespace run (without re.DOTALL the
dot stops at a newline). -/
def matchPartyAt (s : List Char) : Option (List Char) := do
  let r1 ← matchCI "party".data s
  let r2 ← matchCI "name".data (r1.dropWhile pyWS)
  let r3 ← matchCI ":".data (r2.dropWhile pyWS)
  pure ((r3.dropWhile pyWS).takeWhile (fun ch => ch ≠ '\n'))

/-- Match `Gadi\s*No\s*:\s*(.*)` at one position. -/
def matchGadiAt (s : List Char) : Option (List Char) := do
  let r1 ← matchCI "gadi".data s
  let r2 ← matchCI "no".data (r1.dropWhile pyWS)
  let r3 ← matchCI ":".data (r2.dropWhile pyWS)
  pure ((r3.dropWhile pyWS).takeWhile (fun ch => ch ≠ '\n'))

/-- Match `Total\s*:\s*(\d+)\s*bxs` at one position, returning the
captured digit run's value. -/
def matchTotalAt (s : List Char) : Option Nat := do
  let r1 ← matchCI "total".data s
  let r2 := (← matchCI ":".data (r1.dropWhile pyWS)).dropWhile pyWS
  let ds := r2.takeWhile Char.isDigit
  if ds.isEmpty then none
  else do
    let _ ← matchCI "bxs".data ((r2.drop ds.length).dropWhile pyWS)
    pure (digitsToNat ds)

def searchParty : List Char → Option (List Char) := searchFrom matchPartyAt
def searchGadi : List Char → Option (List Char) := searchFrom matchGadiAt
def searchTotal : List Char → Option Nat := searchFrom matchTotalAt

/-- Tail of the item pattern after its `\(`:
`\s*(\d+)\s*bxs\s*(.*?)\)`.  Returns (quantity, raw description capture,
remainder after the closing parenthesis). -/
def afterParen (rest : List Char) : Option (Nat × List Char × List Char) :=
  let r1 := rest.dropWhile pyWS
  let ds := r1.takeWhile Char.isDigit
  if ds.isEmpty then none
  else do
    let r2 ← matchCI "bxs".data ((r1.drop ds.length).dropWhile pyWS)
    let (cap, rem) ← breakAtChar ')' (r2.dropWhile pyWS)
    pure (digitsToNat ds, cap, rem)

/-- Longest-first backtracking over the `(\S+)` capture of the item
pattern: `lotRev` is the reversed candidate lot token, `rest` what
follows it; shrink the token one character at a time until
`\s*\(` and the tail of the pattern match. -/
def tryK : List Char → List Char → Option (List Char × Nat × List Char × List Char)
  | [], _ => none
  | lotRev@(c :: lr), rest =>
      match rest.dropWhile pyWS with
      | '(' :: r1 =>
          match afterParen r1 with
          | some (q, cap, rem) => some (lotRev.reverse, q, cap, rem)
          | none => tryK lr (c :: rest)
      | _ => tryK lr (c :: rest)

/-- Match `Lot\s*no\s*:\s*(\S+)\s*\(\s*(\d+)\s*bxs\s*(.*?)\)` at one
position: (lot token, quantity, raw description), plus the remainder of
the text after the match. -/
def matchItemAt (s : List Char) : Option ((List Char × Nat × List Char) × List Char) := do
  let r1 ← matchCI "lot".data s
  let r2 ← matchCI "no".data (r1.dropWhile pyWS)
  let r3 ← matchCI ":".data (r2.dropWhile pyWS)
  let r4 := r3.dropWhile pyWS
  let run := r4.takeWhile (fun ch => !(pyWS ch))
  if run.isEmpty then none
  else
    match tryK run.reverse (r4.drop run.length) with
    | some (lot, q, cap, rem) => some ((lot, q, cap), rem)
    | none => none

/-- `re.findall` with the item pattern: scan left to right, emit each
match and resume after it.  Fuel-driven; fuel `length + 1` suffices
because each step either advances one position or consumes a whole
match (which is never empty). -/
def itemFindall : Nat → List Char → List (List Char × Nat × List Char)
  | 0, _ => []
  | _ + 1, [] => []
  | fuel + 1, s@(_ :: t) =>
      match matchItemAt s with
      | some (cap, rem) => cap :: itemFindall fuel rem
      | none => itemFindall fuel t

/-! ### Data model: the four SQLite tables (init_db, app.py lines 12-59) -/

/-- One row of the `stock` table (`lot_no` is UNIQUE; the AUTOINCREMENT
id is represented by list position). -/
structure StockRecord where
  lot_no : String
  product_description : String
  quantity : Int
deriving Repr, DecidableEq

/-- One row of the `orders` table. -/
structure OrderHeader where
  id : Nat
  party_name : String
  gadi_no : String
  order_date : String
deriving Repr, DecidableEq

/-- One row of the `order_items` table (list position stands for the
AUTOINCREMENT id). -/
structure OrderItemRow where
  order_id : Nat
  lot_no : String
  quantity : Int
  product_description : String
deriving Repr, DecidableEq

/-- One row of the `stock_entries` table, and equally one parsed entry
dict produced by `parse_stock_text`. -/
structure StockEntryRec where
  inward_date : String
  storage_area : String
  lot_no : String
  product_name : String
  brand_name : String
  in_quantity : Int
  out_quantity : Int
  balance_quantity : Int
deriving Repr, DecidableEq

/-- The database state: the four tables plus the next `orders` rowid. -/
structure DB where
  orders : List OrderHeader
  order_items : List OrderItemRow
  stock : List StockRecord
  stock_entries : List StockEntryRec
  nextOrderId : Nat
deriving Repr, DecidableEq

def emptyDB : DB := ⟨[], [], [], [], 1⟩

/-- One parsed order item (the dicts in `order_items` of
`parse_order_text`'s result, and of `st.session_state.order_items`). -/
structure OrderItemData where
  lot_no : String
  quantity : Int
  product_description : String
deriving Repr, DecidableEq

/-- Result of `parse_order_text`. -/
structure ParsedOrder where
  party_name : String
  gadi_no : String
  order_items : List OrderItemData
  total : Option Int
deriving Repr, DecidableEq

/-! ### Ledger and order-log operations (app.py lines 64-174) -/

/-- `add_order` (lines 64-68): INSERT into `orders`, return lastrowid. -/
def add_order (db : DB) (party gadi date : String) : DB × Nat :=
  ({ db with
      orders := db.orders ++ [⟨db.nextOrderId, party, gadi, date⟩],
      nextOrderId := db.nextOrderId + 1 },
   db.nextOrderId)

/-- `add_order_item` (lines 70-73). -/
def add_order_item (db : DB) (oid : Nat) (lot : String) (q : Int)
    (desc : String) : DB :=
  { db with order_items := db.order_items ++ [⟨oid, lot, q, desc⟩] }

/-- Stock-table effect of `set_stock` (lines 84-102): the INSERT raises
IntegrityError exactly when a row with this lot_no exists (UNIQUE), in
which case the UPDATE overwrites quantity and description of every
matching row. -/
def setStockList (l : List StockRecord) (lot desc : String) (q : Int) :
    List StockRecord :=
  if l.any (fun r => r.lot_no == lot) then
    l.map (fun r =>
      if r.lot_no == lot then
        { r with quantity := q, product_description := desc }
      else r)
  else l ++ [⟨lot, desc, q⟩]

/-- `set_stock` (lines 84-102). -/
def set_stock (db : DB) (lot desc : String) (q : Int) : DB :=
  { db with stock := setStockList db.stock lot desc q }

/-- Stock-table effect of `add_stock_increment` (lines 104-121): insert,
or on IntegrityError add to the quantity and overwrite the
description. -/
def incStockList (l : List StockRecord) (lot desc : String) (dq : Int) :
    List StockRecord :=
  if l.any (fun r => r.lot_no == lot) then
    l.map (fun r =>
      if r.lot_no == lot then
        { r with quantity := r.quantity + dq, product_description := desc }
      else r)
  else l ++ [⟨lot, desc, dq⟩]

/-- `add_stock_increment` (lines 104-121). -/
def add_stock_increment (db : DB) (lot desc : String) (dq : Int) : DB :=
  { db with stock := incStockList db.stock lot desc dq }

/-- `add_stock_entry` (lines 128-142). -/
def add_stock_entry (db : DB) (idate sarea lot pname bname : String)
    (iq oq bq : Int) : DB :=
  { db with stock_entries :=
      db.stock_entries ++ [⟨idate, sarea, lot, pname, bname, iq, oq, bq⟩] }

/-- `update_stock_from_entry` (lines 144-156): record the raw entry,
then overwrite the ledger with the balance quantity and the combined
description `f"{product_name} - {brand_name}"`. -/
def update_stock_from_entry (db : DB) (idate sarea lot pname bname : String)
    (iq oq bq : Int) : DB :=
  set_stock (add_stock_entry db idate sarea lot pname bname iq oq bq)
    lot (pname ++ " - " ++ bname) bq

/-- The error string of the absent-lot branch of
`update_stock_after_order`. -/
def lotNotFoundMsg (lot : String) : String :=
  s!"Lot no {lot} does not exist in stock."

/-- The error string of the insufficient-stock branch of
`update_stock_after_order`: it carries the available quantity. -/
def insufficientMsg (lot : String) (avail req : Int) : String :=
  s!"Insufficient stock for Lot no {lot}. Available: {avail}, Required: {req}"

/-- `update_stock_after_order` (lines 159-174): SELECT the row for the
lot; fail if absent or if its quantity is below the request; otherwise
UPDATE the quantity to the difference.  Returns the new state with the
`(valid, message)` pair of the source. -/
def update_stock_after_order (db : DB) (lot : String) (q : Int) :
    DB × Bool × String :=
  match db.stock.find? (fun r => r.lot_no == lot) with
  | none => (db, false, lotNotFoundMsg lot)
  | some row =>
      if row.quantity < q then
        (db, false, insufficientMsg lot row.quantity q)
      else
        ({ db with stock := db.stock.map (fun r =>
              if r.lot_no == lot then { r with quantity := row.quantity - q }
              else r) },
         true, "Stock updated.")

/-! ### The parsers (app.py lines 179-280) -/

/-- Build one order-item dict from the raw captures of the item pattern
(app.py lines 208-216): strip the lot token, `int` the digit capture,
replace newlines by spaces in the description and strip it. -/
def itemToData (t : List Char × Nat × List Char) : OrderItemData :=
  { lot_no := String.mk (pyStrip t.1),
    quantity := Int.ofNat t.2.1,
    product_description :=
      String.mk (pyStrip (t.2.2.map (fun ch => if ch = '\n' then ' ' else ch))) }

/-- `parse_order_text` (lines 179-223). -/
def parse_order_text (text : String) : ParsedOrder :=
  let full := pyStrip text.data
  { party_name :=
      match searchParty full with
      | some cap => String.mk (pyStrip cap)
      | none => "",
    gadi_no :=
      match searchGadi full with
      | some cap => String.mk (pyStrip cap)
      | none => "",
    order_items := (itemFindall (full.length + 1) full).map itemToData,
    total :=
      match searchTotal full with
      | some n => some (Int.ofNat n)
      | none => none }

/-- Outcome of one line of `parse_stock_text`: silently skipped, a
ValueError raised by `int(...)` (payload: the offending field), or a
complete entry. -/
inductive LineRes where
  | skip : LineRes
  | bad : String → LineRes
  | good : StockEntryRec → LineRes
deriving Repr, DecidableEq

/-- One iteration of the line loop of `parse_stock_text` (app.py lines
247-279): strip; skip empty lines; split on tabs, re-split on 2+ spaces
when fewer than 8 columns; skip if still fewer than 8; `int` the three
quantity columns (left to right, first failure raises). -/
def parseStockLine (rawLine : List Char) : LineRes :=
  let line := pyStrip rawLine
  if line.isEmpty then .skip
  else
    let parts0 := splitChar '\t' line
    let parts := if parts0.length < 8 then splitWS2 line else parts0
    if parts.length < 8 then .skip
    else
      let fld := fun (i : Nat) => String.mk (pyStrip (parts.getD i []))
      match pyInt (parts.getD 5 []) with
      | none => .bad (fld 5)
      | some iq =>
        match pyInt (parts.getD 6 []) with
        | none => .bad (fld 6)
        | some oq =>
          match pyInt (parts.getD 7 []) with
          | none => .bad (fld 7)
          | some bq =>
            .good ⟨fld 0, fld 1, fld 2, fld 3, fld 4, iq, oq, bq⟩

/-- The lines `parse_stock_text` iterates over: splitlines of the
stripped text, with a detected header line removed (app.py lines
236-245). -/
def stockDataLines (text : String) : List (List Char) :=
  match pySplitlines (pyStrip text.data) with
  | [] => []
  | l0 :: rest =>
      let h := l0.map Char.toLower
      if containsSub h "inwarddate".data || containsSub h "storagearea".data
      then rest
      else l0 :: rest

/-- The line loop of `parse_stock_text`: a `bad` line raises, aborting
the whole call and losing entries already collected. -/
def collectEntries : List (List Char) → Except String (List StockEntryRec)
  | [] => .ok []
  | l :: t =>
      match parseStockLine l with
      | .skip => collectEntries t
      | .bad e => .error e
      | .good en =>
          match collectEntries t with
          | .ok es => .ok (en :: es)
          | .error e => .error e

/-- `parse_stock_text` (lines 225-280); `Except.error` models the
ValueError escaping the call. -/
def parse_stock_text (text : String) : Except String (List StockEntryRec) :=
  collectEntries (stockDataLines text)

/-- The entry a line contributes, if any. -/
def lineEntry (l : List Char) : Option StockEntryRec :=
  match parseStockLine l with
  | .good en => some en
  | _ => none

/-- Does this line raise a ValueError? -/
def isBadLine (l : List Char) : Bool :=
  match parseStockLine l with
  | .bad _ => true
  | _ => false

/-! ### Order submission (the Submit Order handler, app.py lines 424-443;
the Paste Order handler at lines 321-345 is identical) -/

/-- The validation loop (lines 426-432): run
`update_stock_after_order` on every item in sequence, keep
`error_flag` and append each failure message. -/
def reservePass (db : DB) (items : List OrderItemData) :
    DB × Bool × List String :=
  items.foldl (fun acc it =>
      let r := update_stock_after_order acc.1 it.lot_no it.quantity
      (r.1, acc.2.1 || !r.2.1, if r.2.1 then acc.2.2 else acc.2.2 ++ [r.2.2]))
    (db, false, [])

/-- The whole submit handler (lines 424-443): validate every item; on
any failure report the messages and persist nothing; otherwise add the
header and then every item row. -/
def submitOrder (db : DB) (party gadi date : String)
    (items : List OrderItemData) : DB × Bool × List String :=
  let p := reservePass db items
  if p.2.1 then (p.1, false, p.2.2)
  else
    let a := add_order p.1 party gadi date
    let db2 := items.foldl
      (fun d it => add_order_item d a.2 it.lot_no it.quantity it.product_description)
      a.1
    (db2, true, [])

/-- State effect of reserving one item, ignoring the result pair. -/
def applyReserve (db : DB) (it : OrderItemData) : DB :=
  (update_stock_after_order db it.lot_no it.quantity).1

/-- The failure messages the validation loop collects, item by item. -/
def collectFailMsgs : DB → List OrderItemData → List String
  | _, [] => []
  | db, it :: t =>
      let r := update_stock_after_order db it.lot_no it.quantity
      (if r.2.1 then [] else [r.2.2]) ++ collectFailMsgs r.1 t

/-! ### Ledger operation sequences (for the quantity invariant) -/

/-- One ledger operation of the invariant claim. -/
inductive LedgerOp where
  | inc (lot desc : String) (delta : Int)
  | setBal (lot desc : String) (q : Int)
  | res (lot : String) (q : Int)
deriving Repr, DecidableEq

def applyOp (db : DB) : LedgerOp → DB
  | .inc lot d dq => add_stock_increment db lot d dq
  | .setBal lot d q => set_stock db lot d q
  | .res lot q => (update_stock_after_order db lot q).1

/-- The side conditions the spec places on an operation: increments have
positive delta, balance overwrites are non-negative, reservations are
unrestricted. -/
def opOK : LedgerOp → Bool
  | .inc _ _ dq => decide (0 < dq)
  | .setBal _ _ q => decide (0 ≤ q)
  | .res _ _ => true

/-- The invariant: every stored quantity is non-negative. -/
def stockNonneg (db : DB) : Prop :=
  ∀ r ∈ db.stock, 0 ≤ r.quantity

instance (db : DB) : Decidable (stockNonneg db) :=
  List.decidableBAll _ db.stock

/-! ### Lemmas -/

/-- `find?` on a cons, phrased with `if` and explicit arguments so it
rewrites without higher-order unification trouble. -/
theorem find?_cons_eq {α : Type} (p : α → Bool) (a : α) (l : List α) :
    (a :: l).find? p = if p a then some a else l.find? p := by
  by_cases h : p a = true
  · rw [if_pos h]
    exact List.find?_cons_of_pos l h
  · rw [if_neg h]
    exact List.find?_cons_of_neg l h

/-- Updating the rows matching a lot with a lot-preserving function
moves `find?` through the map. -/
theorem find?_map_update (lot : String) (g : StockRecord → StockRecord)
    (hg : ∀ r : StockRecord, (r.lot_no == lot) = true →
      ((g r).lot_no == lot) = true) :
    ∀ (l : List StockRecord) (row : StockRecord),
      l.find? (fun r => r.lot_no == lot) = some row →
      (l.map (fun r => if r.lot_no == lot then g r else r)).find?
          (fun r => r.lot_no == lot) = some (g row) := by
  intro l
  induction l with
  | nil => intro row h; simp at h
  | cons a t ih =>
      intro row h
      rw [find?_cons_eq] at h
      by_cases hp : (a.lot_no == lot) = true
      · rw [if_pos hp] at h
        cases h
        simp only [List.map_cons, if_pos hp]
        rw [find?_cons_eq, if_pos (hg a hp)]
      · rw [if_neg hp] at h
        simp only [List.map_cons, if_neg hp]
        rw [find?_cons_eq, if_neg hp]
        exact ih row h

/-- A false `any` over the lot predicate means no row matches. -/
theorem no_row_matches {l : List StockRecord} {lot : String}
    (h : ¬ l.any (fun r => r.lot_no == lot) = true) :
    ∀ x ∈ l, ¬ (x.lot_no == lot) = true := by
  intro x hx
  exact List.any_eq_false.mp (Bool.not_eq_true _ ▸ h) x hx

/-- After `setStockList`, the row found for the lot is exactly the
supplied description and quantity. -/
theorem find?_setStockList (l : List StockRecord) (lot desc : String)
    (q : Int) :
    (setStockList l lot desc q).find? (fun r => r.lot_no == lot) =
      some ⟨lot, desc, q⟩ := by
  unfold setStockList
  by_cases h : l.any (fun r => r.lot_no == lot) = true
  · rw [if_pos h]
    obtain ⟨row, hrow⟩ := Option.isSome_iff_exists.mp
      (List.find?_isSome.mpr (List.any_eq_true.mp h))
    have hpred := List.find?_some hrow
    have hres := find?_map_update lot
      (fun r => { r with quantity := q, product_description := desc })
      (fun r hr => hr) l row hrow
    rw [hres]
    have hlot : row.lot_no = lot := by simpa using hpred
    cases row
    simp_all
  · rw [if_neg h]
    have hnone : l.find? (fun r => r.lot_no == lot) = none :=
      List.find?_eq_none.mpr (no_row_matches h)
    rw [List.find?_append, hnone]
    rw [find?_cons_eq, if_pos (by simp)]
    rfl

/-- The row update of `setStockList` is idempotent and preserves the
lot predicate. -/
theorem setStockList_idem (l : List StockRecord) (lot desc : String)
    (q : Int) :
    setStockList (setStockList l lot desc q) lot desc q =
      setStockList l lot desc q := by
  classical
  set upd : StockRecord → StockRecord := fun r =>
    if r.lot_no == lot then { r with quantity := q, product_description := desc }
    else r with hupd
  have hpointwise : ∀ r : StockRecord,
      ((upd r).lot_no == lot) = (r.lot_no == lot) := by
    intro r
    by_cases hp : (r.lot_no == lot) = true
    · rw [hupd]
      simp only [if_pos hp]
    · rw [hupd]
      simp only [if_neg hp]
  have hidem : ∀ r : StockRecord, upd (upd r) = upd r := by
    intro r
    by_cases hp : (r.lot_no == lot) = true
    · rw [hupd]
      simp only [if_pos hp]
    · rw [hupd]
      simp only [if_neg hp]
  by_cases h : l.any (fun r => r.lot_no == lot) = true
  · have h1 : setStockList l lot desc q = l.map upd := by
      unfold setStockList; rw [if_pos h]
    have hany : (l.map upd).any (fun r => r.lot_no == lot) = true := by
      rw [List.any_map]
      have hfun : ((fun r : StockRecord => r.lot_no == lot) ∘ upd) =
          (fun r : StockRecord => r.lot_no == lot) :=
        funext fun r => hpointwise r
      rw [hfun]; exact h
    rw [h1]
    unfold setStockList
    rw [if_pos hany, List.map_map]
    exact List.map_congr_left (fun r _ => hidem r)
  · have h1 : setStockList l lot desc q = l ++ [⟨lot, desc, q⟩] := by
      unfold setStockList; rw [if_neg h]
    have hany : (l ++ [(⟨lot, desc, q⟩ : StockRecord)]).any
        (fun r => r.lot_no == lot) = true := by
      rw [List.any_append]
      simp
    rw [h1]
    unfold setStockList
    rw [if_pos hany, List.map_append]
    have hmapl : l.map upd = l := by
      have hid : l.map upd = l.map id := by
        apply List.map_congr_left
        intro r hr
        rw [hupd]
        simp only [id]
        rw [if_neg (no_row_matches h r hr)]
      rw [hid, List.map_id]
    rw [hmapl]
    have hone : [(⟨lot, desc, q⟩ : StockRecord)].map upd =
        [⟨lot, desc, q⟩] := by
      rw [hupd]
      simp
    rw [hone]

/-- `set_stock` with a non-negative quantity preserves the invariant. -/
theorem stockNonneg_set {db : DB} {lot desc : String} {q : Int}
    (h : stockNonneg db) (hq : 0 ≤ q) :
    stockNonneg (set_stock db lot desc q) := by
  intro r hr
  simp only [set_stock, setStockList] at hr
  by_cases ha : db.stock.any (fun x => x.lot_no == lot) = true
  · rw [if_pos ha] at hr
    obtain ⟨a, hal, rfl⟩ := List.mem_map.mp hr
    by_cases hp : (a.lot_no == lot) = true
    · rw [if_pos hp]; exact hq
    · rw [if_neg hp]; exact h a hal
  · rw [if_neg ha] at hr
    rcases List.mem_append.mp hr with hl | hn
    · exact h r hl
    · rcases List.mem_singleton.mp hn with rfl
      exact hq

/-- `add_stock_increment` with a positive delta preserves the
invariant. -/
theorem stockNonneg_inc {db : DB} {lot desc : String} {dq : Int}
    (h : stockNonneg db) (hdq : 0 < dq) :
    stockNonneg (add_stock_increment db lot desc dq) := by
  intro r hr
  simp only [add_stock_increment, incStockList] at hr
  by_cases ha : db.stock.any (fun x => x.lot_no == lot) = true
  · rw [if_pos ha] at hr
    obtain ⟨a, hal, rfl⟩ := List.mem_map.mp hr
    by_cases hp : (a.lot_no == lot) = true
    · rw [if_pos hp]
      exact add_nonneg (h a hal) hdq.le
    · rw [if_neg hp]; exact h a hal
  · rw [if_neg ha] at hr
    rcases List.mem_append.mp hr with hl | hn
    · exact h r hl
    · rcases List.mem_singleton.mp hn with rfl
      exact hdq.le

/-- `update_stock_after_order` preserves the invariant unconditionally:
its only mutating branch requires the requested quantity to be at most
the available one. -/
theorem stockNonneg_res {db : DB} {lot : String} {q : Int}
    (h : stockNonneg db) :
    stockNonneg (update_stock_after_order db lot q).1 := by
  cases hf : db.stock.find? (fun r => r.lot_no == lot) with
  | none =>
      simp only [update_stock_after_order, hf]
      exact h
  | some row =>
      by_cases hlt : row.quantity < q
      · simp only [update_stock_after_order, hf]
        rw [if_pos hlt]
        exact h
      · simp only [update_stock_after_order, hf]
        rw [if_neg hlt]
        intro r hr
        obtain ⟨a, hal, rfl⟩ := List.mem_map.mp hr
        by_cases hp : (a.lot_no == lot) = true
        · rw [if_pos hp]
          exact Int.sub_nonneg.mpr (not_lt.mp hlt)
        · rw [if_neg hp]; exact h a hal

/-- `update_stock_after_order` only ever touches the stock table. -/
theorem reserve_only_stock (db : DB) (lot : String) (q : Int) :
    (update_stock_after_order db lot q).1.orders = db.orders ∧
    (update_stock_after_order db lot q).1.order_items = db.order_items ∧
    (update_stock_after_order db lot q).1.stock_entries = db.stock_entries ∧
    (update_stock_after_order db lot q).1.nextOrderId = db.nextOrderId := by
  cases hf : db.stock.find? (fun r => r.lot_no == lot) with
  | none => simp [update_stock_after_order, hf]
  | some row =>
      by_cases hlt : row.quantity < q
      · simp [update_stock_after_order, hf, hlt]
      · simp [update_stock_after_order, hf, hlt]

/-- Sequencing reservations touches nothing but the stock table. -/
theorem reserve_fold_only_stock (items : List OrderItemData) :
    ∀ db : DB,
      (items.foldl applyReserve db).orders = db.orders ∧
      (items.foldl applyReserve db).order_items = db.order_items := by
  induction items with
  | nil => intro db; exact ⟨rfl, rfl⟩
  | cons it t ih =>
      intro db
      rw [List.foldl_cons]
      obtain ⟨h1, h2⟩ := ih (applyReserve db it)
      obtain ⟨g1, g2, _, _⟩ := reserve_only_stock db it.lot_no it.quantity
      exact ⟨h1.trans g1, h2.trans g2⟩

/-- The validation loop of the submit handler, in closed form: the
final state is the fold of the reservations, the flag records whether
any failed, and the messages are all the failure messages in order. -/
theorem reservePass_closed (items : List OrderItemData) :
    ∀ (db : DB) (b : Bool) (ms : List String),
      items.foldl (fun acc it =>
          let r := update_stock_after_order acc.1 it.lot_no it.quantity
          (r.1, acc.2.1 || !r.2.1,
           if r.2.1 then acc.2.2 else acc.2.2 ++ [r.2.2]))
        (db, b, ms) =
      (items.foldl applyReserve db,
       b || !(collectFailMsgs db items).isEmpty,
       ms ++ collectFailMsgs db items) := by
  induction items with
  | nil =>
      intro db b ms
      simp [collectFailMsgs]
  | cons it t ih =>
      intro db b ms
      rw [List.foldl_cons, List.foldl_cons]
      cases hok : (update_stock_after_order db it.lot_no it.quantity).2.1 with
      | true =>
          simp only [hok]
          rw [ih]
          simp [collectFailMsgs, applyReserve, hok]
      | false =>
          simp only [hok]
          rw [ih]
          simp [collectFailMsgs, applyReserve, hok, List.append_assoc]

/-- `reservePass` itself, as the closed form with empty accumulator. -/
theorem reservePass_eq (db : DB) (items : List OrderItemData) :
    reservePass db items =
      (items.foldl applyReserve db,
       !(collectFailMsgs db items).isEmpty,
       collectFailMsgs db items) := by
  unfold reservePass
  rw [reservePass_closed]
  simp

/-- Skipped lines contribute nothing: with no raising line, the loop
returns exactly the entries of the complete lines. -/
theorem collectEntries_ok (L : List (List Char))
    (h : ∀ l ∈ L, isBadLine l = false) :
    collectEntries L = .ok (L.filterMap lineEntry) := by
  induction L with
  | nil => rfl
  | cons l t ih =>
      have hl := h l (List.mem_cons_self l t)
      have ht : ∀ x ∈ t, isBadLine x = false :=
        fun x hx => h x (List.mem_cons_of_mem l hx)
      cases hc : parseStockLine l with
      | skip =>
          simp only [collectEntries, hc, List.filterMap_cons]
          have : lineEntry l = none := by simp [lineEntry, hc]
          rw [this]
          exact ih ht
      | bad e =>
          exfalso
          have : isBadLine l = true := by simp [isBadLine, hc]
          rw [hl] at this
          exact Bool.false_ne_true this
      | good en =>
          simp only [collectEntries, hc, List.filterMap_cons]
          have : lineEntry l = some en := by simp [lineEntry, hc]
          rw [this, ih ht]

/-- A raising line makes the whole parse raise. -/
theorem collectEntries_err (L : List (List Char))
    (h : ∃ l ∈ L, isBadLine l = true) :
    ∃ e, collectEntries L = .error e := by
  induction L with
  | nil => simp at h
  | cons l t ih =>
      cases hc : parseStockLine l with
      | skip =>
          have ht : ∃ x ∈ t, isBadLine x = true := by
            rcases h with ⟨x, hx, hbad⟩
            rcases List.mem_cons.mp hx with rfl | hxt
            · rw [isBadLine, hc] at hbad; exact absurd hbad (by simp)
            · exact ⟨x, hxt, hbad⟩
          obtain ⟨e, he⟩ := ih ht
          exact ⟨e, by simp [collectEntries, hc, he]⟩
      | bad e =>
          exact ⟨e, by simp [collectEntries, hc]⟩
      | good en =>
          have ht : ∃ x ∈ t, isBadLine x = true := by
            rcases h with ⟨x, hx, hbad⟩
            rcases List.mem_cons.mp hx with rfl | hxt
            · rw [isBadLine, hc] at hbad; exact absurd hbad (by simp)
            · exact ⟨x, hxt, hbad⟩
          obtain ⟨e, he⟩ := ih ht
          exact ⟨e, by simp [collectEntries, hc, he]⟩

/-! ### Claim theorems -/

/-- C1: the reserve operation `update_stock_after_order` satisfies its
three-branch contract: on an absent lot it fails with the LotNotFound
message and changes nothing; on a present lot with quantity below the
request it fails with the InsufficientStock message carrying the
available quantity and changes nothing; on a present lot with enough
quantity it succeeds and the stored row keeps its lot and description
while its quantity becomes exactly the old quantity minus the
request. -/
theorem reserve_contract (db : DB) (lot : String) (q : Int) :
    (db.stock.find? (fun r => r.lot_no == lot) = none →
      update_stock_after_order db lot q = (db, false, lotNotFoundMsg lot)) ∧
    (∀ row : StockRecord,
      db.stock.find? (fun r => r.lot_no == lot) = some row →
      row.quantity < q →
      update_stock_after_order db lot q =
        (db, false, insufficientMsg lot row.quantity q)) ∧
    (∀ row : StockRecord,
      db.stock.find? (fun r => r.lot_no == lot) = some row →
      q ≤ row.quantity →
      (update_stock_after_order db lot q).2 = (true, "Stock updated.") ∧
      (update_stock_after_order db lot q).1.stock.find?
          (fun r => r.lot_no == lot) =
        some { row with quantity := row.quantity - q }) := by
  refine ⟨?_, ?_, ?_⟩
  · intro hf
    simp [update_stock_after_order, hf]
  · intro row hf hlt
    simp [update_stock_after_order, hf, hlt]
  · intro row hf hge
    have hlt : ¬ row.quantity < q := not_lt.mpr hge
    constructor
    · simp [update_stock_after_order, hf, hlt]
    · have hmap := find?_map_update lot
        (fun r => { r with quantity := row.quantity - q })
        (fun r hr => hr) db.stock row hf
      simp only [update_stock_after_order, hf]
      rw [if_neg hlt]
      exact hmap

/-- Witness for C1: a ledger holding lot "A" with quantity 5 exercises
all three branches (absent lot "B", excessive request 7, request 3). -/
theorem reserve_contract_witness :
    (update_stock_after_order ⟨[], [], [⟨"A", "d", 5⟩], [], 1⟩ "B" 2 =
      (⟨[], [], [⟨"A", "d", 5⟩], [], 1⟩, false, lotNotFoundMsg "B")) ∧
    (update_stock_after_order ⟨[], [], [⟨"A", "d", 5⟩], [], 1⟩ "A" 7 =
      (⟨[], [], [⟨"A", "d", 5⟩], [], 1⟩, false, insufficientMsg "A" 5 7)) ∧
    ((update_stock_after_order ⟨[], [], [⟨"A", "d", 5⟩], [], 1⟩ "A" 3).2 =
      (true, "Stock updated.") ∧
     (update_stock_after_order ⟨[], [], [⟨"A", "d", 5⟩], [], 1⟩ "A" 3).1.stock.find?
        (fun r => r.lot_no == "A") = some ⟨"A", "d", 2⟩) :=
  ⟨(reserve_contract ⟨[], [], [⟨"A", "d", 5⟩], [], 1⟩ "B" 2).1 (by decide),
   (reserve_contract ⟨[], [], [⟨"A", "d", 5⟩], [], 1⟩ "A" 7).2.1
     ⟨"A", "d", 5⟩ (by decide) (by decide),
   (reserve_contract ⟨[], [], [⟨"A", "d", 5⟩], [], 1⟩ "A" 3).2.2
     ⟨"A", "d", 5⟩ (by decide) (by decide)⟩

/-- C2: starting from a state with only non-negative stored quantities,
any finite sequence of ledger operations — increments with positive
delta, balance overwrites with non-negative quantity, reservations —
leaves every stored quantity non-negative. -/
theorem ledger_quantity_nonneg (ops : List LedgerOp) (db : DB)
    (h0 : stockNonneg db) (hops : ∀ op ∈ ops, opOK op = true) :
    stockNonneg (ops.foldl applyOp db) := by
  induction ops generalizing db with
  | nil => exact h0
  | cons op t ih =>
      rw [List.foldl_cons]
      have hop := hops op (List.mem_cons_self op t)
      have ht : ∀ x ∈ t, opOK x = true :=
        fun x hx => hops x (List.mem_cons_of_mem op hx)
      refine ih (applyOp db op) ?_ ht
      cases op with
      | inc lot d dq =>
          have hdq : 0 < dq := by simpa [opOK] using hop
          exact stockNonneg_inc h0 hdq
      | setBal lot d q =>
          have hq : 0 ≤ q := by simpa [opOK] using hop
          exact stockNonneg_set h0 hq
      | res lot q => exact stockNonneg_res h0

/-- Witness for C2: a concrete mixed sequence starting from the empty
ledger keeps every quantity non-negative. -/
theorem ledger_quantity_nonneg_witness :
    stockNonneg emptyDB ∧
    (∀ op ∈ [LedgerOp.inc "A" "d" 5, LedgerOp.setBal "B" "e" 3,
             LedgerOp.res "A" 2, LedgerOp.res "C" 1, LedgerOp.res "A" 9],
      opOK op = true) ∧
    stockNonneg
      ([LedgerOp.inc "A" "d" 5, LedgerOp.setBal "B" "e" 3,
        LedgerOp.res "A" 2, LedgerOp.res "C" 1,
        LedgerOp.res "A" 9].foldl applyOp emptyDB) :=
  ⟨by decide, by decide,
   ledger_quantity_nonneg _ emptyDB (by decide) (by decide)⟩

/-- C7: `set_stock` is idempotent — calling it twice with the same lot,
description and quantity leaves the database in exactly the state of one
call. -/
theorem set_stock_idempotent (db : DB) (lot desc : String) (q : Int) :
    set_stock (set_stock db lot desc q) lot desc q =
      set_stock db lot desc q := by
  simp only [set_stock]
  rw [setStockList_idem]

/-- C8: the derived upsert `update_stock_from_entry` leaves the stock
row of the lot at exactly the entry's balance quantity with description
`product_name ++ " - " ++ brand_name`; and the spec's example stock
line parses to balance 212 and upserts (into the empty database) to
quantity 212 with description
"WET DATES BOX 5 KG (imp) - AJWA (PREMIUM)". -/
theorem stock_entry_upsert :
    (∀ (db : DB) (idate sarea lot pname bname : String) (iq oq bq : Int),
      (update_stock_from_entry db idate sarea lot pname bname iq oq bq).stock.find?
          (fun r => r.lot_no == lot) =
        some ⟨lot, pname ++ " - " ++ bname, bq⟩) ∧
    parse_stock_text
        "15/02/2025\tCS-20\t14393\tWET DATES BOX 5 KG (imp)\tAJWA (PREMIUM)\t494\t282\t212" =
      .ok [⟨"15/02/2025", "CS-20", "14393", "WET DATES BOX 5 KG (imp)",
            "AJWA (PREMIUM)", 494, 282, 212⟩] ∧
    (update_stock_from_entry emptyDB "15/02/2025" "CS-20" "14393"
        "WET DATES BOX 5 KG (imp)" "AJWA (PREMIUM)" 494 282 212).stock =
      [⟨"14393", "WET DATES BOX 5 KG (imp) - AJWA (PREMIUM)", 212⟩] := by
  refine ⟨?_, by rfl, by decide⟩
  intro db idate sarea lot pname bname iq oq bq
  exact find?_setStockList db.stock lot (pname ++ " - " ++ bname) bq

/-- C10: a successful reserve changes only the quantity of the rows of
the requested lot — their description survives, every other stock row is
untouched, and the orders, order_items and stock_entries tables and the
order-id counter are unchanged. -/
theorem reserve_frame (db : DB) (lot : String) (q : Int)
    (h : (update_stock_after_order db lot q).2.1 = true) :
    (update_stock_after_order db lot q).1.orders = db.orders ∧
    (update_stock_after_order db lot q).1.order_items = db.order_items ∧
    (update_stock_after_order db lot q).1.stock_entries = db.stock_entries ∧
    (update_stock_after_order db lot q).1.nextOrderId = db.nextOrderId ∧
    ∃ row : StockRecord,
      db.stock.find? (fun r => r.lot_no == lot) = some row ∧
      (update_stock_after_order db lot q).1.stock =
        db.stock.map (fun r =>
          if r.lot_no == lot then { r with quantity := row.quantity - q }
          else r) := by
  obtain ⟨h1, h2, h3, h4⟩ := reserve_only_stock db lot q
  refine ⟨h1, h2, h3, h4, ?_⟩
  cases hf : db.stock.find? (fun r => r.lot_no == lot) with
  | none =>
      exfalso
      simp [update_stock_after_order, hf] at h
  | some row =>
      by_cases hlt : row.quantity < q
      · exfalso
        simp [update_stock_after_order, hf, hlt] at h
      · refine ⟨row, rfl, ?_⟩
        simp only [update_stock_after_order, hf]
        rw [if_neg hlt]

/-- Witness for C10: reserving 2 of lot "A" from a two-lot ledger. -/
theorem reserve_frame_witness :
    ((update_stock_after_order
        ⟨[], [], [⟨"A", "d", 5⟩, ⟨"B", "e", 4⟩], [], 1⟩ "A" 2).2.1 = true) ∧
    ((update_stock_after_order
        ⟨[], [], [⟨"A", "d", 5⟩, ⟨"B", "e", 4⟩], [], 1⟩ "A" 2).1.orders = [] ∧
     (update_stock_after_order
        ⟨[], [], [⟨"A", "d", 5⟩, ⟨"B", "e", 4⟩], [], 1⟩ "A" 2).1.order_items = [] ∧
     (update_stock_after_order
        ⟨[], [], [⟨"A", "d", 5⟩, ⟨"B", "e", 4⟩], [], 1⟩ "A" 2).1.stock_entries = [] ∧
     (update_stock_after_order
        ⟨[], [], [⟨"A", "d", 5⟩, ⟨"B", "e", 4⟩], [], 1⟩ "A" 2).1.nextOrderId = 1 ∧
     ∃ row : StockRecord,
       (⟨[], [], [⟨"A", "d", 5⟩, ⟨"B", "e", 4⟩], [], 1⟩ : DB).stock.find?
           (fun r => r.lot_no == "A") = some row ∧
       (update_stock_after_order
           ⟨[], [], [⟨"A", "d", 5⟩, ⟨"B", "e", 4⟩], [], 1⟩ "A" 2).1.stock =
         (⟨[], [], [⟨"A", "d", 5⟩, ⟨"B", "e", 4⟩], [], 1⟩ : DB).stock.map
           (fun r =>
             if r.lot_no == "A" then { r with quantity := row.quantity - 2 }
             else r)) :=
  ⟨by decide,
   reserve_frame ⟨[], [], [⟨"A", "d", 5⟩, ⟨"B", "e", 4⟩], [], 1⟩ "A" 2 (by decide)⟩


/-- C3: order submission reserves every item in sequence without
short-circuiting (final stock is the fold of the reservations, the
message list is the list of every failure message in order); when at
least one failure occurred, the submission persists no order header and
no order items, yet returns exactly the folded state — the deductions of
the items that succeeded are kept, not rolled back. -/
theorem submit_no_rollback (db : DB) (party gadi date : String)
    (items : List OrderItemData) :
    (reservePass db items).1 = items.foldl applyReserve db ∧
    (reservePass db items).2.2 = collectFailMsgs db items ∧
    (items.foldl applyReserve db).orders = db.orders ∧
    (items.foldl applyReserve db).order_items = db.order_items ∧
    (collectFailMsgs db items ≠ [] →
      submitOrder db party gadi date items =
        (items.foldl applyReserve db, false, collectFailMsgs db items)) := by
  obtain ⟨ho, hi⟩ := reserve_fold_only_stock items db
  have hrp := reservePass_eq db items
  refine ⟨by rw [hrp], by rw [hrp], ho, hi, ?_⟩
  intro hne
  have hflag : (!(collectFailMsgs db items).isEmpty) = true := by
    cases hms : collectFailMsgs db items with
    | nil => exact absurd hms hne
    | cons m t => simp
  unfold submitOrder
  rw [hrp]
  simp [hflag]

/-- Witness for C3: two items, the first ("A", quantity 2) in stock, the
second ("B") absent: the submit fails with B's message, persists no
order rows, and lot "A" stays deducted to 3. -/
theorem submit_no_rollback_witness :
    (collectFailMsgs ⟨[], [], [⟨"A", "d", 5⟩], [], 1⟩
        [⟨"A", 2, "x"⟩, ⟨"B", 3, "y"⟩] ≠ []) ∧
    (submitOrder ⟨[], [], [⟨"A", "d", 5⟩], [], 1⟩ "P" "G" "D"
        [⟨"A", 2, "x"⟩, ⟨"B", 3, "y"⟩] =
      ([⟨"A", 2, "x"⟩, ⟨"B", 3, "y"⟩].foldl applyReserve
          ⟨[], [], [⟨"A", "d", 5⟩], [], 1⟩,
       false,
       collectFailMsgs ⟨[], [], [⟨"A", "d", 5⟩], [], 1⟩
          [⟨"A", 2, "x"⟩, ⟨"B", 3, "y"⟩])) ∧
    ([⟨"A", 2, "x"⟩, ⟨"B", 3, "y"⟩].foldl applyReserve
        ⟨[], [], [⟨"A", "d", 5⟩], [], 1⟩).stock = [⟨"A", "d", 3⟩] ∧
    (submitOrder ⟨[], [], [⟨"A", "d", 5⟩], [], 1⟩ "P" "G" "D"
        [⟨"A", 2, "x"⟩, ⟨"B", 3, "y"⟩]).1.orders = [] ∧
    (submitOrder ⟨[], [], [⟨"A", "d", 5⟩], [], 1⟩ "P" "G" "D"
        [⟨"A", 2, "x"⟩, ⟨"B", 3, "y"⟩]).1.order_items = [] :=
  ⟨by decide,
   (submit_no_rollback ⟨[], [], [⟨"A", "d", 5⟩], [], 1⟩ "P" "G" "D"
      [⟨"A", 2, "x"⟩, ⟨"B", 3, "y"⟩]).2.2.2.2 (by decide),
   by decide, by decide, by decide⟩

/-- C5: the two worked examples of the spec: the full four-line order
text parses to party "NS", vehicle "MH 05 EA 9834", the single item
(lot "14016", quantity 2, description "SAFAWI A-1 QUALITY") and total 2;
and an item block whose description spans a line break yields the
description with the newline collapsed and trimmed. -/
theorem parse_order_text_examples :
    parse_order_text
        "Party Name : NS\nGadi No : MH 05 EA 9834\nLot no : 14016 (2 bxs SAFAWI A-1 QUALITY)\nTotal : 2 bxs" =
      ⟨"NS", "MH 05 EA 9834", [⟨"14016", 2, "SAFAWI A-1 QUALITY"⟩], some 2⟩ ∧
    (parse_order_text "Lot no : 14391 (2 bxs\nSAFAWI SUPER QUALITY)").order_items =
      [⟨"14391", 2, "SAFAWI SUPER QUALITY"⟩] := by
  constructor
  · rfl
  · rfl

/-- C6: `parse_order_text` totalizes every field: an unmatched
party-name pattern gives the empty string, an unmatched vehicle pattern
gives the empty string, an unmatched total pattern gives `none`, and the
item list is exactly the matches of the item pattern. -/
theorem parse_order_text_graceful (text : String) :
    (searchParty (pyStrip text.data) = none →
      (parse_order_text text).party_name = "") ∧
    (searchGadi (pyStrip text.data) = none →
      (parse_order_text text).gadi_no = "") ∧
    (searchTotal (pyStrip text.data) = none →
      (parse_order_text text).total = none) ∧
    (parse_order_text text).order_items =
      (itemFindall ((pyStrip text.data).length + 1) (pyStrip text.data)).map
        itemToData := by
  refine ⟨?_, ?_, ?_, rfl⟩
  · intro h
    simp [parse_order_text, h]
  · intro h
    simp [parse_order_text, h]
  · intro h
    simp [parse_order_text, h]

/-- Witness for C6: on the text "hello" none of the three patterns
matches and the parse degrades to empty fields. -/
theorem parse_order_text_graceful_witness :
    searchParty (pyStrip "hello".data) = none ∧
    searchGadi (pyStrip "hello".data) = none ∧
    searchTotal (pyStrip "hello".data) = none ∧
    (parse_order_text "hello").party_name = "" ∧
    (parse_order_text "hello").gadi_no = "" ∧
    (parse_order_text "hello").total = none :=
  ⟨by decide, by decide, by decide,
   (parse_order_text_graceful "hello").1 (by decide),
   (parse_order_text_graceful "hello").2.1 (by decide),
   (parse_order_text_graceful "hello").2.2.1 (by decide)⟩

/-- C9 is false as stated: the item pattern's quantity group `(\d+)`
admits "0", so a parsed order item can carry quantity 0, which is not
positive. -/
theorem order_item_zero_quantity_counterexample :
    ∃ it ∈ (parse_order_text "Lot no : 14016 (0 bxs FOO)").order_items,
      ¬ (0 < it.quantity) := by
  refine ⟨⟨"14016", 0, "FOO"⟩, by decide, by decide⟩

/-- C9 (amended): every parsed order item's quantity is a non-negative
integer — the digits-only capture group rules out malformed and negative
quantities, but not zero. -/
theorem order_item_quantity_nonneg (text : String) :
    ∀ it ∈ (parse_order_text text).order_items, 0 ≤ it.quantity := by
  intro it hit
  have hparse : (parse_order_text text).order_items =
      (itemFindall ((pyStrip text.data).length + 1) (pyStrip text.data)).map
        itemToData := rfl
  rw [hparse] at hit
  obtain ⟨t, _, rfl⟩ := List.mem_map.mp hit
  exact Int.ofNat_nonneg t.2.1

/-- Witness for C9 (amended): the item of the spec's four-line example
has non-negative quantity. -/
theorem order_item_quantity_nonneg_witness :
    0 ≤ (OrderItemData.mk "14016" 2 "SAFAWI A-1 QUALITY").quantity :=
  order_item_quantity_nonneg
    "Party Name : NS\nGadi No : MH 05 EA 9834\nLot no : 14016 (2 bxs SAFAWI A-1 QUALITY)\nTotal : 2 bxs"
    ⟨"14016", 2, "SAFAWI A-1 QUALITY"⟩ (by decide)

/-- C4 is false as stated: on a line with eight fields whose quantity
field is not an integer, `parse_stock_text` does not silently discard
the line — the `int(...)` call raises and the exception escapes the
call (modelled by the `Except.error` result), so no output list is
produced at all. -/
theorem parse_stock_text_raises_counterexample :
    parse_stock_text "01/01/2025\tA\tL1\tP\tB\tabc\t2\t3" =
      Except.error "abc" := by
  rfl

/-- C4 (amended): a line with fewer than eight fields (or an empty
line) is silently discarded and contributes nothing to the output, and
when no line has unparseable quantity fields the call returns exactly
the entries of the complete lines; but any line whose three quantity
fields are not all parseable integers makes a ValueError escape the
call. -/
theorem parse_stock_text_skip_or_raise (text : String) :
    ((∀ l ∈ stockDataLines text, isBadLine l = false) →
      parse_stock_text text = .ok ((stockDataLines text).filterMap lineEntry)) ∧
    ((∃ l ∈ stockDataLines text, isBadLine l = true) →
      ∃ e, parse_stock_text text = .error e) := by
  constructor
  · intro h
    exact collectEntries_ok (stockDataLines text) h
  · intro h
    exact collectEntries_err (stockDataLines text) h

/-- Witness for C4 (amended): a paste whose middle line is short is
skipped while both complete lines are kept; a paste with a non-numeric
quantity raises. -/
theorem parse_stock_text_skip_or_raise_witness :
    (∀ l ∈ stockDataLines "1/1\tA\tL1\tP\tB\t1\t2\t3\nshort line\n2/2\tA\tL2\tP\tB\t4\t5\t6",
      isBadLine l = false) ∧
    parse_stock_text "1/1\tA\tL1\tP\tB\t1\t2\t3\nshort line\n2/2\tA\tL2\tP\tB\t4\t5\t6" =
      .ok ((stockDataLines "1/1\tA\tL1\tP\tB\t1\t2\t3\nshort line\n2/2\tA\tL2\tP\tB\t4\t5\t6").filterMap lineEntry) ∧
    (∃ l ∈ stockDataLines "01/01/2025\tA\tL1\tP\tB\tabc\t2\t3", isBadLine l = true) ∧
    (∃ e, parse_stock_text "01/01/2025\tA\tL1\tP\tB\tabc\t2\t3" = .error e) :=
  ⟨by decide,
   (parse_stock_text_skip_or_raise
      "1/1\tA\tL1\tP\tB\t1\t2\t3\nshort line\n2/2\tA\tL2\tP\tB\t4\t5\t6").1 (by decide),
   by decide,
   (parse_stock_text_skip_or_raise "01/01/2025\tA\tL1\tP\tB\tabc\t2\t3").2 (by decide)⟩

end Inventory
